import Mathlib

/-!
Shallow embedding of the versioned site-option store implemented in
`src/main.py`.

The SQLite table `site_options` is modelled as a `List Fact`; the unique index
on `(site_id, version_id, brand, pn, dp_id)` corresponds to the well-formedness
predicate `WellFormedFacts` and to the insert-or-replace operation
`insertOrReplace`.  The `sites` table is a `List SiteRow` with a unique index on
`site_id`.  A SQL `NULL` in the `on_site` column (a tombstone) is `none`; a
stored boolean is `some b`.  Python `assert` failures (unknown site) are
modelled with `Except Err`.  Changelog rows (`site_changes`) are write-only
narration in the source and are not modelled.
-/

namespace Branchable

/-- One row of the `site_options` table. -/
structure Fact where
  site_id : Nat
  version_id : Int
  brand : String
  pn : String
  dp_id : Int
  on_site : Option Bool
deriving DecidableEq, Repr

/-- One row of the `sites` table. -/
structure SiteRow where
  site_id : Nat
  trunk_version_id : Int
  branch_version_id : Int
deriving DecidableEq, Repr

/-- The whole database state. -/
structure DB where
  sites : List SiteRow
  opts : List Fact
deriving DecidableEq, Repr

/-- The only failure mode in the source: a Python `assert` firing
(`get_site_trunk_version` / `get_site_branch_version` on an unknown site). -/
inductive Err where
  | assertFailed
deriving DecidableEq, Repr

/-- The result row of `fetch_site_option` (the `SiteOption` dataclass). -/
structure SiteOption where
  site_id : Nat
  version_id : Int
  brand : String
  pn : String
  dp_id : Int
  on_site : Bool
deriving DecidableEq, Repr

/-- The lookup-key part of a fact, governed by the unique index
`idx_site_options`. -/
def factKey (f : Fact) : Nat × Int × String × String × Int :=
  (f.site_id, f.version_id, f.brand, f.pn, f.dp_id)

/-- No two rows share the unique-index key (the invariant the SQLite unique
index enforces). -/
def WellFormedFacts (fs : List Fact) : Prop :=
  (fs.map factKey).Nodup

instance : DecidablePred WellFormedFacts := fun fs =>
  inferInstanceAs (Decidable ((fs.map factKey).Nodup))

/-- Two facts collide on the unique index. -/
def sameKey (a b : Fact) : Bool :=
  a.site_id == b.site_id && a.version_id == b.version_id &&
  a.brand == b.brand && a.pn == b.pn && a.dp_id == b.dp_id

/-- SQLite `INSERT OR REPLACE`: drop any row with the same unique-index key,
then insert. -/
def insertOrReplace (fs : List Fact) (r : Fact) : List Fact :=
  fs.filter (fun x => !(sameKey x r)) ++ [r]

/-- Row lookup in `sites` (`SELECT ... FROM sites WHERE site_id=:site_id`). -/
def findSite (db : DB) (site : Nat) : Option SiteRow :=
  db.sites.find? (fun s => s.site_id == site)

/-- Does a fact match the filter
`site_id=s AND brand=b AND pn=p AND dp_id=d AND version_id<=bound`? -/
def lmatch (s : Nat) (b p : String) (d : Int) (bound : Int) (f : Fact) : Bool :=
  f.site_id == s && f.brand == b && f.pn == p && f.dp_id == d &&
    f.version_id ≤ bound

/-- Fold step of `latestFrom`: keep the matching row with the largest
`version_id` (the SQL `ORDER BY version_id DESC LIMIT 1`). -/
def pickLater (s : Nat) (b p : String) (d : Int) (bound : Int)
    (acc : Option Fact) (f : Fact) : Option Fact :=
  if lmatch s b p d bound f then
    match acc with
    | none => some f
    | some g => if g.version_id < f.version_id then some f else acc
  else acc

def latestFrom (s : Nat) (b p : String) (d : Int) (bound : Int)
    (acc : Option Fact) (fs : List Fact) : Option Fact :=
  fs.foldl (pickLater s b p d bound) acc

/-- `SELECT * FROM site_options WHERE site_id=s AND brand=b AND pn=p AND
dp_id=d AND version_id<=bound ORDER BY version_id DESC LIMIT 1`. -/
def latest (fs : List Fact) (s : Nat) (b p : String) (d : Int)
    (bound : Int) : Option Fact :=
  latestFrom s b p d bound none fs

/-- The scalar value of one subselect of the fetch query: the `on_site` column
of the latest matching row, `NULL` when there is no row or the row is a
tombstone. -/
def subVal (fs : List Fact) (s : Nat) (b p : String) (d : Int)
    (bound : Int) : Option Bool :=
  (latest fs s b p d bound).bind Fact.on_site

/-- The `COALESCE` cascade of `fetch_site_option`, evaluated over fact list
`fs` with published version `bound`: exact key, then `(brand, pn, 0)`, then
`(brand, "*", 0)`, then `("*", "*", 0)`, then the hard-coded `TRUE`. -/
def fetchVal (fs : List Fact) (s : Nat) (b p : String) (d : Int)
    (bound : Int) : Bool :=
  ((((subVal fs s b p d bound).orElse
      (fun _ => subVal fs s b p 0 bound)).orElse
      (fun _ => subVal fs s b "*" 0 bound)).orElse
      (fun _ => subVal fs s "*" "*" 0 bound)).getD true

/-- `fetch_site_option` from the source: read the trunk version (asserting the
site exists), run the coalesce query, convert the row. -/
def fetch_site_option (db : DB) (site : Nat) (brand pn : String)
    (dp_id : Int) : Except Err SiteOption :=
  match findSite db site with
  | none => .error .assertFailed
  | some s =>
    .ok { site_id := site, version_id := s.trunk_version_id, brand := brand,
          pn := pn, dp_id := dp_id,
          on_site := fetchVal db.opts site brand pn dp_id s.trunk_version_id }

/-- `create_site`: `INSERT OR REPLACE INTO sites VALUES (:site_id, 0, 1)`.
Note the OR REPLACE: re-creating an existing site resets its counters. -/
def create_site (db : DB) (site : Nat) : DB :=
  { db with sites :=
      db.sites.filter (fun s => !(s.site_id == site)) ++
        [{ site_id := site, trunk_version_id := 0, branch_version_id := 1 }] }

/-- Python truthiness of an optional string (`if brand:`). -/
def truthyStr : Option String → Bool
  | none => false
  | some s => !(s == "")

/-- Python truthiness of an optional integer (`if dp_id:`). -/
def truthyInt : Option Int → Bool
  | none => false
  | some n => !(n == 0)

/-- The WHERE clause the cascade of `store_site_option` builds dynamically:
`site_id=:site_id AND version_id<=:branch_version_id` plus one equality per
*truthy* parameter. -/
def predMatch (site : Nat) (bv : Int) (brand pn : Option String)
    (dp : Option Int) (f : Fact) : Bool :=
  f.site_id == site && f.version_id ≤ bv &&
  (match brand with
   | none => true
   | some s => if s == "" then true else f.brand == s) &&
  (match pn with
   | none => true
   | some s => if s == "" then true else f.pn == s) &&
  (match dp with
   | none => true
   | some n => if n == 0 then true else f.dp_id == n)

/-- The join condition of the cascade's `INSERT ... SELECT`: row `a` joins
the grouped subquery `b` on `a.site_id=b.site_id AND a.version_id=b.version_id
AND a.brand=b.brand AND a.pn=b.pn AND a.dp_id=a.dp_id` — the last conjunct is
the source's literal (always-true) self-comparison, so `b`'s `dp_id` is left
unconstrained. -/
def isCascadeSource (fs : List Fact) (site : Nat) (bv : Int)
    (brand pn : Option String) (dp : Option Int) (a : Fact) : Bool :=
  a.site_id == site &&
  fs.any (fun w =>
    predMatch site bv brand pn dp w &&
    w.brand == a.brand && w.pn == a.pn && w.version_id == a.version_id &&
    !(fs.any (fun u =>
        predMatch site bv brand pn dp u &&
        u.brand == w.brand && u.pn == w.pn && u.dp_id == w.dp_id &&
        w.version_id < u.version_id)))

/-- The tombstone cascade: for every join result, insert-or-replace a row at
the branch version with `on_site = NULL`. -/
def cascadeTombstones (fs : List Fact) (site : Nat) (bv : Int)
    (brand pn : Option String) (dp : Option Int) : List Fact :=
  (fs.filter (isCascadeSource fs site bv brand pn dp)).foldl
    (fun acc a =>
      insertOrReplace acc
        { site_id := site, version_id := bv, brand := a.brand, pn := a.pn,
          dp_id := a.dp_id, on_site := none }) fs

/-- `store_site_option`: read the branch version (asserting the site exists);
if any of brand/pn/dp_id is `None` run the tombstone cascade; substitute the
wildcard sentinels; insert-or-replace the new fact at the branch version. -/
def store_site_option (db : DB) (site : Nat) (brand pn : Option String)
    (dp_id : Option Int) (on_site : Bool) : Except Err DB :=
  match findSite db site with
  | none => .error .assertFailed
  | some s =>
    let bv := s.branch_version_id
    let fs1 := if brand == none || pn == none || dp_id == none then
        cascadeTombstones db.opts site bv brand pn dp_id
      else db.opts
    let newFact : Fact :=
      { site_id := site, version_id := bv, brand := brand.getD "*",
        pn := pn.getD "*", dp_id := dp_id.getD 0, on_site := some on_site }
    .ok { db with opts := insertOrReplace fs1 newFact }

/-- The per-row effect of the publish UPDATE: rows of the published site get
`trunk_version_id := branch_version_id` and
`branch_version_id := branch_version_id + 1`; other rows are untouched. -/
def updFn (site : Nat) (x : SiteRow) : SiteRow :=
  if x.site_id == site then
    { x with trunk_version_id := x.branch_version_id,
             branch_version_id := x.branch_version_id + 1 }
  else x

/-- `publish_site`: `UPDATE sites SET trunk_version_id=branch_version_id,
branch_version_id=branch_version_id+1 WHERE site_id=:site_id` (after asserting
the site exists). -/
def publish_site (db : DB) (site : Nat) : Except Err DB :=
  match findSite db site with
  | none => .error .assertFailed
  | some _ =>
    .ok { db with sites := db.sites.map (updFn site) }

/-- `rollback_site`: delete every row at the branch version (the source's
DELETE carries no `site_id` filter); copy, per key of this site, the latest
row at or before the target version to the branch version (the source's join
does not constrain `a.site_id`, so rows of any site with matching key fields
are copied); tombstone at the branch version every key of this site whose
latest row at or before the branch version is not at the branch version;
publish.  The fact-list transformation of the first three steps is
`rollbackFacts`. -/
def rollbackFacts (fs : List Fact) (site : Nat) (toV br : Int) : List Fact :=
  let fs1 := fs.filter (fun f => !(f.version_id == br))
  let copies := (fs1.filter (fun a =>
      match latest fs1 site a.brand a.pn a.dp_id toV with
      | some m => m.version_id == a.version_id
      | none => false)).map (fun a => { a with version_id := br })
  let fs2 := fs1 ++ copies
  let keys := (fs2.filterMap (fun f =>
      if f.site_id == site && f.version_id ≤ br then
        some (f.brand, f.pn, f.dp_id)
      else none)).dedup
  let tombs := (keys.filter (fun k =>
      match latest fs2 site k.1 k.2.1 k.2.2 br with
      | some m => !(m.version_id == br)
      | none => false)).map (fun k =>
        ({ site_id := site, version_id := br, brand := k.1, pn := k.2.1,
           dp_id := k.2.2, on_site := none } : Fact))
  fs2 ++ tombs

/-- The rollback operation: read the branch version (asserting the site
exists), transform the fact table with `rollbackFacts`, then publish. -/
def rollback_site (db : DB) (site : Nat) (toV : Int) : Except Err DB :=
  match findSite db site with
  | none => .error .assertFailed
  | some s =>
    publish_site
      { db with opts := rollbackFacts db.opts site toV s.branch_version_id }
      site

/-- One driver-level operation on the store. -/
inductive Op where
  | create (site : Nat)
  | store (site : Nat) (brand pn : Option String) (dp_id : Option Int)
      (on_site : Bool)
  | publish (site : Nat)
  | rollback (site : Nat) (toV : Int)
  | fetch (site : Nat) (brand pn : String) (dp_id : Int)
deriving DecidableEq, Repr

/-- Apply one operation; a failed assertion leaves the state unchanged (the
exception fires before any write in the source). -/
def applyOp (db : DB) : Op → DB
  | .create s => create_site db s
  | .store s b p d v =>
    match store_site_option db s b p d v with
    | .ok db' => db'
    | .error _ => db
  | .publish s =>
    match publish_site db s with
    | .ok db' => db'
    | .error _ => db
  | .rollback s v =>
    match rollback_site db s v with
    | .ok db' => db'
    | .error _ => db
  | .fetch _ _ _ _ => db

/-- Run a sequence of operations. -/
def exec (db : DB) (ops : List Op) : DB :=
  ops.foldl applyOp db

/-- The empty database. -/
def emptyDB : DB := { sites := [], opts := [] }

/-- Does this operation avoid re-registering an existing site? -/
def createFreshOK (db : DB) : Op → Bool
  | .create s => (findSite db s).isNone
  | _ => true

/-- Every `create` in the sequence targets a site that is not currently
registered (re-registration resets counters and is excluded). -/
def freshCreates (db : DB) : List Op → Bool
  | [] => true
  | op :: rest => createFreshOK db op && freshCreates (applyOp db op) rest

/-! ## Basic lemmas about keys and insert-or-replace -/

theorem sameKey_iff {a c : Fact} : sameKey a c = true ↔ factKey a = factKey c := by
  simp [sameKey, factKey, Prod.ext_iff, and_assoc]

theorem sameKey_true_symm {a c : Fact} (h : sameKey a c = true) : sameKey c a = true :=
  sameKey_iff.mpr (sameKey_iff.mp h).symm

theorem self_mem_insertOrReplace (fs : List Fact) (r : Fact) :
    r ∈ insertOrReplace fs r := by
  simp [insertOrReplace]

theorem mem_insertOrReplace_of_mem {fs : List Fact} {r x : Fact} (hx : x ∈ fs)
    (hk : sameKey x r = false) : x ∈ insertOrReplace fs r := by
  simp [insertOrReplace, List.mem_filter, hx, hk]

theorem mem_of_mem_insertOrReplace {fs : List Fact} {r x : Fact}
    (hx : x ∈ insertOrReplace fs r) : x ∈ fs ∨ x = r := by
  rcases List.mem_append.mp hx with h | h
  · exact Or.inl (List.mem_filter.mp h).1
  · simp only [List.mem_singleton] at h
    exact Or.inr h

theorem mem_foldl_ir {rs : List Fact} : ∀ {fs : List Fact} {x : Fact}, x ∈ fs →
    (∀ r ∈ rs, sameKey r x = true → r = x) →
    x ∈ rs.foldl insertOrReplace fs := by
  induction rs with
  | nil =>
    intro fs x hx _
    simpa using hx
  | cons r rs ih =>
    intro fs x hx hsame
    simp only [List.foldl_cons]
    apply ih
    · cases hk : sameKey x r with
      | false => exact mem_insertOrReplace_of_mem hx hk
      | true =>
        have hr : r = x := hsame r (by simp) (sameKey_true_symm hk)
        rw [hr]
        exact self_mem_insertOrReplace fs x
    · intro q hq h
      exact hsame q (List.mem_cons_of_mem _ hq) h

theorem mem_foldl_ir_of_mem_rs {rs : List Fact} : ∀ {fs : List Fact} {r : Fact}, r ∈ rs →
    (∀ q ∈ rs, sameKey q r = true → q = r) →
    r ∈ rs.foldl insertOrReplace fs := by
  induction rs with
  | nil =>
    intro fs r h
    cases h
  | cons q rs ih =>
    intro fs r hr hsame
    simp only [List.foldl_cons]
    rcases List.mem_cons.mp hr with rfl | hr
    · exact mem_foldl_ir (self_mem_insertOrReplace fs r)
        (fun q2 hq2 h => hsame q2 (List.mem_cons_of_mem _ hq2) h)
    · exact ih hr (fun q2 hq2 h => hsame q2 (List.mem_cons_of_mem _ hq2) h)

theorem mem_of_mem_foldl_ir {rs : List Fact} : ∀ {fs : List Fact} {x : Fact},
    x ∈ rs.foldl insertOrReplace fs → x ∈ fs ∨ x ∈ rs := by
  induction rs with
  | nil =>
    intro fs x h
    exact Or.inl (by simpa using h)
  | cons r rs ih =>
    intro fs x h
    simp only [List.foldl_cons] at h
    rcases ih h with h1 | h1
    · rcases mem_of_mem_insertOrReplace h1 with h2 | h2
      · exact Or.inl h2
      · exact Or.inr (by simp [h2])
    · exact Or.inr (List.mem_cons_of_mem _ h1)

/-! ## Lemmas about the latest-at-or-before query -/

theorem lmatch_iff {s : Nat} {b p : String} {d bound : Int} {f : Fact} :
    lmatch s b p d bound f = true ↔
      f.site_id = s ∧ f.brand = b ∧ f.pn = p ∧ f.dp_id = d ∧
        f.version_id ≤ bound := by
  simp [lmatch, and_assoc]

theorem latestFrom_nil (s : Nat) (b p : String) (d bound : Int) (acc : Option Fact) :
    latestFrom s b p d bound acc [] = acc := rfl

theorem latestFrom_cons (s : Nat) (b p : String) (d bound : Int) (acc : Option Fact)
    (f : Fact) (fs : List Fact) :
    latestFrom s b p d bound acc (f :: fs) =
      latestFrom s b p d bound (pickLater s b p d bound acc f) fs := rfl

theorem pickLater_eq (s : Nat) (b p : String) (d bound : Int) (acc : Option Fact)
    (f : Fact) :
    pickLater s b p d bound acc f = acc ∨
      (pickLater s b p d bound acc f = some f ∧ lmatch s b p d bound f = true) := by
  cases h : lmatch s b p d bound f with
  | false => exact Or.inl (by simp [pickLater, h])
  | true =>
    cases acc with
    | none => exact Or.inr ⟨by simp [pickLater, h], rfl⟩
    | some g =>
      by_cases hv : g.version_id < f.version_id
      · exact Or.inr ⟨by simp [pickLater, h, hv], rfl⟩
      · exact Or.inl (by simp [pickLater, h, hv])

theorem pickLater_acc_le (s : Nat) (b p : String) (d bound : Int) (a f : Fact) :
    ∃ c, pickLater s b p d bound (some a) f = some c ∧
      a.version_id ≤ c.version_id := by
  cases h : lmatch s b p d bound f with
  | false => exact ⟨a, by simp [pickLater, h], le_refl _⟩
  | true =>
    by_cases hv : a.version_id < f.version_id
    · exact ⟨f, by simp [pickLater, h, hv], le_of_lt hv⟩
    · exact ⟨a, by simp [pickLater, h, hv], le_refl _⟩

theorem pickLater_match_le {s : Nat} {b p : String} {d bound : Int} {f : Fact}
    (h : lmatch s b p d bound f = true) (acc : Option Fact) :
    ∃ c, pickLater s b p d bound acc f = some c ∧
      f.version_id ≤ c.version_id := by
  cases acc with
  | none => exact ⟨f, by simp [pickLater, h], le_refl _⟩
  | some g =>
    by_cases hv : g.version_id < f.version_id
    · exact ⟨f, by simp [pickLater, h, hv], le_refl _⟩
    · exact ⟨g, by simp [pickLater, h, hv], le_of_not_lt hv⟩

theorem latestFrom_eq_none {s : Nat} {b p : String} {d bound : Int} :
    ∀ {fs : List Fact} {acc : Option Fact},
    latestFrom s b p d bound acc fs = none →
    acc = none ∧ ∀ f ∈ fs, lmatch s b p d bound f = false := by
  intro fs
  induction fs with
  | nil =>
    intro acc h
    exact ⟨h, by simp⟩
  | cons f fs ih =>
    intro acc h
    rw [latestFrom_cons] at h
    obtain ⟨hacc, hall⟩ := ih h
    rcases pickLater_eq s b p d bound acc f with he | ⟨he, hm⟩
    · rw [he] at hacc
      subst hacc
      refine ⟨rfl, ?_⟩
      intro g hg
      rcases List.mem_cons.mp hg with rfl | hg
      · cases hm : lmatch s b p d bound g with
        | false => rfl
        | true =>
          obtain ⟨c, hc, _⟩ := pickLater_match_le hm (none : Option Fact)
          rw [hc] at he
          cases he
      · exact hall g hg
    · rw [he] at hacc
      cases hacc

theorem latestFrom_eq_some {s : Nat} {b p : String} {d bound : Int} :
    ∀ {fs : List Fact} {acc : Option Fact} {g : Fact},
    latestFrom s b p d bound acc fs = some g →
    (acc = some g ∨ (g ∈ fs ∧ lmatch s b p d bound g = true)) ∧
    (∀ a, acc = some a → a.version_id ≤ g.version_id) ∧
    (∀ f ∈ fs, lmatch s b p d bound f = true → f.version_id ≤ g.version_id) := by
  intro fs
  induction fs with
  | nil =>
    intro acc g h
    refine ⟨Or.inl h, ?_, by simp⟩
    intro a ha
    rw [ha] at h
    cases h
    exact le_refl _
  | cons f fs ih =>
    intro acc g h
    rw [latestFrom_cons] at h
    obtain ⟨hmem, hacc, hall⟩ := ih h
    refine ⟨?_, ?_, ?_⟩
    · rcases hmem with h1 | ⟨h1, h2⟩
      · rcases pickLater_eq s b p d bound acc f with he | ⟨he, hm⟩
        · rw [he] at h1
          exact Or.inl h1
        · rw [he] at h1
          cases h1
          exact Or.inr ⟨List.mem_cons_self _ _, hm⟩
      · exact Or.inr ⟨List.mem_cons_of_mem _ h1, h2⟩
    · intro a ha
      subst ha
      obtain ⟨c, hc, hle⟩ := pickLater_acc_le s b p d bound a f
      exact le_trans hle (hacc c hc)
    · intro f2 hf2 hm2
      rcases List.mem_cons.mp hf2 with rfl | hf2
      · obtain ⟨c, hc, hle⟩ := pickLater_match_le hm2 acc
        exact le_trans hle (hacc c hc)
      · exact hall f2 hf2 hm2

theorem latestFrom_acc_isSome {s : Nat} {b p : String} {d bound : Int} :
    ∀ {fs : List Fact} (a : Fact),
    ∃ g, latestFrom s b p d bound (some a) fs = some g := by
  intro fs
  induction fs with
  | nil => exact fun a => ⟨a, rfl⟩
  | cons f fs ih =>
    intro a
    rw [latestFrom_cons]
    obtain ⟨c, hc, _⟩ := pickLater_acc_le s b p d bound a f
    rw [hc]
    exact ih c

theorem latestFrom_isSome_of_mem {s : Nat} {b p : String} {d bound : Int} :
    ∀ {fs : List Fact} (acc : Option Fact) {f : Fact}, f ∈ fs →
    lmatch s b p d bound f = true →
    ∃ g, latestFrom s b p d bound acc fs = some g := by
  intro fs
  induction fs with
  | nil =>
    intro acc f hf _
    cases hf
  | cons f0 fs ih =>
    intro acc f hf hm
    rw [latestFrom_cons]
    rcases List.mem_cons.mp hf with rfl | hf2
    · obtain ⟨c, hc, _⟩ := pickLater_match_le hm acc
      rw [hc]
      exact latestFrom_acc_isSome c
    · exact ih _ hf2 hm

theorem latest_isSome_of_mem {s : Nat} {b p : String} {d bound : Int}
    {fs : List Fact} {f : Fact} (hf : f ∈ fs)
    (hm : lmatch s b p d bound f = true) :
    ∃ g, latest fs s b p d bound = some g :=
  latestFrom_isSome_of_mem none hf hm

theorem latest_eq_of_strict {s : Nat} {b p : String} {d bound : Int}
    {fs : List Fact} {g : Fact} (hg : g ∈ fs)
    (hm : lmatch s b p d bound g = true)
    (hstrict : ∀ f ∈ fs, lmatch s b p d bound f = true → f ≠ g →
      f.version_id < g.version_id) :
    latest fs s b p d bound = some g := by
  obtain ⟨g2, hg2⟩ := latest_isSome_of_mem hg hm
  obtain ⟨hmem, _, hmax⟩ := latestFrom_eq_some hg2
  rcases hmem with h | ⟨hg2mem, hg2m⟩
  · cases h
  · by_cases he : g2 = g
    · rw [hg2, he]
    · have h1 := hstrict g2 hg2mem hg2m he
      have h2 := hmax g hg hm
      omega

theorem latest_eq_none_of_forall {s : Nat} {b p : String} {d bound : Int}
    {fs : List Fact} (h : ∀ f ∈ fs, lmatch s b p d bound f = false) :
    latest fs s b p d bound = none := by
  cases hl : latest fs s b p d bound with
  | none => rfl
  | some g =>
    obtain ⟨hmem, _, _⟩ := latestFrom_eq_some hl
    rcases hmem with h2 | ⟨hgm, hgl⟩
    · cases h2
    · rw [h g hgm] at hgl
      cases hgl

theorem subVal_eq_none_of_forall {s : Nat} {b p : String} {d bound : Int}
    {fs : List Fact} (h : ∀ f ∈ fs, lmatch s b p d bound f = false) :
    subVal fs s b p d bound = none := by
  unfold subVal
  rw [latest_eq_none_of_forall h]
  rfl

/-! ## Lemmas about site lookup and publish -/

theorem findSite_site_id {db : DB} {site : Nat} {r : SiteRow}
    (h : findSite db site = some r) : r.site_id = site := by
  have h2 := List.find?_some h
  simpa using h2

theorem find?_map_site {site : Nat} (g : SiteRow → SiteRow)
    (hg : ∀ x, (g x).site_id = x.site_id) :
    ∀ {l : List SiteRow} {r : SiteRow},
    l.find? (fun s => s.site_id == site) = some r →
    (l.map g).find? (fun s => s.site_id == site) = some (g r) := by
  intro l
  induction l with
  | nil =>
    intro r h
    cases h
  | cons x l ih =>
    intro r h
    rw [List.find?_cons] at h
    rw [List.map_cons, List.find?_cons]
    have hgx : ((g x).site_id == site) = (x.site_id == site) := by rw [hg]
    cases hx : x.site_id == site with
    | true =>
      rw [hx] at h
      rw [hgx, hx]
      have h2 : some x = some r := h
      cases h2
      rfl
    | false =>
      rw [hx] at h
      rw [hgx, hx]
      exact ih h

theorem publish_site_eq {db : DB} {site : Nat} {r : SiteRow}
    (h : findSite db site = some r) :
    ∃ db2, publish_site db site = .ok db2 ∧ db2.opts = db.opts ∧
      findSite db2 site = some
        { site_id := r.site_id, trunk_version_id := r.branch_version_id,
          branch_version_id := r.branch_version_id + 1 } := by
  have hpub : publish_site db site = .ok
      { db with sites := db.sites.map (updFn site) } := by
    simp only [publish_site, h]
  refine ⟨_, hpub, rfl, ?_⟩
  have hu : ∀ x : SiteRow, (updFn site x).site_id = x.site_id := by
    intro x
    by_cases hx : (x.site_id == site) = true
    · simp [updFn, hx]
    · simp [updFn, hx]
  have h2 := find?_map_site _ hu h
  show (db.sites.map _).find? _ = _
  rw [h2]
  have hr : (r.site_id == site) = true := by
    simp [findSite_site_id h]
  simp [updFn, hr]

/-- C5 (amended): the version `fetch_site_option` reports is always the
site's current trunk (published) version, whatever fact produced the value
and also when the hard-coded fallback applies. -/
theorem c5_fetch_version_is_trunk (db : DB) (site : Nat) (brand pn : String)
    (dp : Int) (r : SiteRow) (hr : findSite db site = some r) :
    (fetch_site_option db site brand pn dp).map SiteOption.version_id =
      Except.ok r.trunk_version_id := by
  simp [fetch_site_option, hr, Except.map]

/-- C5 witness: the amended claim evaluated on a concrete database. -/
theorem c5_fetch_version_is_trunk_witness :
    findSite (DB.mk [⟨1, 1, 2⟩] [⟨1, 1, "B", "P", 5, some true⟩]) 1 =
        some ⟨1, 1, 2⟩ ∧
    (fetch_site_option (DB.mk [⟨1, 1, 2⟩] [⟨1, 1, "B", "P", 5, some true⟩])
        1 "B" "P" 5).map SiteOption.version_id = Except.ok (1 : Int) :=
  ⟨rfl, c5_fetch_version_is_trunk
    (DB.mk [⟨1, 1, 2⟩] [⟨1, 1, "B", "P", 5, some true⟩]) 1 "B" "P" 5
    ⟨1, 1, 2⟩ rfl⟩

/-- The state used in the C5 counterexample: a fact stored and published at
version 1, then one empty publish, so the published version is 2. -/
def c5db : DB :=
  exec emptyDB [Op.create 1, Op.store 1 (some "B") (some "P") (some 5) true,
    Op.publish 1, Op.publish 1]

/-- C5 counterexample: the fact written and published at version 1 still
governs the key (it is the latest fact at or before the published version 2),
yet fetch reports version 2 — the current published version — not the
producing fact's version 1. -/
theorem c5_counterexample :
    latest c5db.opts 1 "B" "P" 5 2 = some ⟨1, 1, "B", "P", 5, some true⟩ ∧
    findSite c5db 1 = some ⟨1, 2, 3⟩ ∧
    fetch_site_option c5db 1 "B" "P" 5 =
      Except.ok ⟨1, 2, "B", "P", 5, true⟩ ∧
    (2 : Int) ≠ 1 :=
  ⟨rfl, rfl, rfl, by decide⟩

/-- C7 (amended): `rollback_site` performs no validation of the target
version: for any registered site and any target — greater than the published
version, zero, or negative — the operation completes and publishes, setting
the trunk to the old branch version. -/
theorem c7_rollback_never_validates (db : DB) (site : Nat) (toV : Int)
    (r : SiteRow) (hr : findSite db site = some r) :
    (rollback_site db site toV).map (fun db2 => findSite db2 site) =
      Except.ok (some ⟨r.site_id, r.branch_version_id,
        r.branch_version_id + 1⟩) := by
  simp only [rollback_site, hr]
  have h2 : findSite
      { db with opts := rollbackFacts db.opts site toV r.branch_version_id }
      site = some r := hr
  obtain ⟨db2, hdb2, _, hfind⟩ := publish_site_eq h2
  rw [hdb2]
  simp [Except.map, hfind]

/-- C7 witness: rollback to target 0 on a registered site completes. -/
theorem c7_rollback_never_validates_witness :
    findSite (DB.mk [⟨1, 1, 2⟩] [⟨1, 1, "B", "P", 5, some true⟩]) 1 =
        some ⟨1, 1, 2⟩ ∧
    (rollback_site (DB.mk [⟨1, 1, 2⟩] [⟨1, 1, "B", "P", 5, some true⟩]) 1 0).map
        (fun db2 => findSite db2 1) = Except.ok (some ⟨1, 2, 3⟩) :=
  ⟨rfl, c7_rollback_never_validates
    (DB.mk [⟨1, 1, 2⟩] [⟨1, 1, "B", "P", 5, some true⟩]) 1 0 ⟨1, 1, 2⟩ rfl⟩

/-- The state used in the C7 counterexample: one fact published at version 1.
Published version is 1, branch version is 2. -/
def c7db : DB :=
  exec emptyDB [Op.create 1, Op.store 1 (some "B") (some "P") (some 5) true,
    Op.publish 1]

/-- C7 counterexample: rollback with the invalid target 0 (zero, and ≤ the
published version is violated too for negative reasons in the claim) does not
fail with any error and does not leave the state unchanged: it succeeds,
appends a tombstone at version 2, and publishes, moving the trunk from 1
to 2. -/
theorem c7_counterexample :
    findSite c7db 1 = some ⟨1, 1, 2⟩ ∧
    rollback_site c7db 1 0 =
      Except.ok (DB.mk [⟨1, 2, 3⟩]
        [⟨1, 1, "B", "P", 5, some true⟩, ⟨1, 2, "B", "P", 5, none⟩]) :=
  ⟨rfl, rfl⟩

/-- C2 (amended): fetch evaluates the four levels in strict
most-specific-first order and returns the value of the first level whose
most recent fact at or before the published version is present and
non-tombstone, with hard-coded fallback `true`; in particular it never
returns a value from a less-specific level when the *most recent* fact at a
more specific level (at or before the published version) is present and
non-tombstone. -/
theorem c2_resolution_order (db : DB) (site : Nat) (b p : String) (d : Int)
    (r : SiteRow) (hr : findSite db site = some r) :
    fetch_site_option db site b p d = Except.ok
      ⟨site, r.trunk_version_id, b, p, d,
        fetchVal db.opts site b p d r.trunk_version_id⟩ ∧
    (∀ v, subVal db.opts site b p d r.trunk_version_id = some v →
      fetchVal db.opts site b p d r.trunk_version_id = v) ∧
    (subVal db.opts site b p d r.trunk_version_id = none →
      ∀ v, subVal db.opts site b p 0 r.trunk_version_id = some v →
      fetchVal db.opts site b p d r.trunk_version_id = v) ∧
    (subVal db.opts site b p d r.trunk_version_id = none →
      subVal db.opts site b p 0 r.trunk_version_id = none →
      ∀ v, subVal db.opts site b "*" 0 r.trunk_version_id = some v →
      fetchVal db.opts site b p d r.trunk_version_id = v) ∧
    (subVal db.opts site b p d r.trunk_version_id = none →
      subVal db.opts site b p 0 r.trunk_version_id = none →
      subVal db.opts site b "*" 0 r.trunk_version_id = none →
      ∀ v, subVal db.opts site "*" "*" 0 r.trunk_version_id = some v →
      fetchVal db.opts site b p d r.trunk_version_id = v) ∧
    (subVal db.opts site b p d r.trunk_version_id = none →
      subVal db.opts site b p 0 r.trunk_version_id = none →
      subVal db.opts site b "*" 0 r.trunk_version_id = none →
      subVal db.opts site "*" "*" 0 r.trunk_version_id = none →
      fetchVal db.opts site b p d r.trunk_version_id = true) := by
  refine ⟨by simp [fetch_site_option, hr], ?_, ?_, ?_, ?_, ?_⟩
  · intro v h1
    simp [fetchVal, h1, Option.orElse]
  · intro h1 v h2
    simp [fetchVal, h1, h2, Option.orElse]
  · intro h1 h2 v h3
    simp [fetchVal, h1, h2, h3, Option.orElse]
  · intro h1 h2 h3 v h4
    simp [fetchVal, h1, h2, h3, h4, Option.orElse]
  · intro h1 h2 h3 h4
    simp [fetchVal, h1, h2, h3, h4, Option.orElse]

/-- C2 witness: the amended claim instantiated on a concrete database where
the fill level answers. -/
theorem c2_resolution_order_witness :
    findSite (DB.mk [⟨1, 1, 2⟩] [⟨1, 1, "B", "P", 0, some false⟩]) 1 =
        some ⟨1, 1, 2⟩ ∧
    fetch_site_option (DB.mk [⟨1, 1, 2⟩] [⟨1, 1, "B", "P", 0, some false⟩])
        1 "B" "P" 5 = Except.ok ⟨1, 1, "B", "P", 5, false⟩ :=
  ⟨rfl, by
    have h := (c2_resolution_order
      (DB.mk [⟨1, 1, 2⟩] [⟨1, 1, "B", "P", 0, some false⟩]) 1 "B" "P" 5
      ⟨1, 1, 2⟩ rfl).1
    rw [h]
    rfl⟩

/-- The state used in the C2 counterexample: a specific fact published at
version 1, then a fill over its item published at version 2; the fill's
cascade tombstoned the specific key at version 2. -/
def c2db : DB :=
  exec emptyDB [Op.create 1, Op.store 1 (some "B") (some "P") (some 5) true,
    Op.publish 1, Op.store 1 (some "B") (some "P") none false, Op.publish 1]

/-- C2 counterexample: a non-tombstone fact exists at the most specific level
with version 1 ≤ published version 2 (the fact stored at version 1), yet the
most recent fact at that level is a tombstone, so fetch returns the value
`false` taken from the less-specific fill level.  The claim's clause that
fetch never returns a value from a less-specific level when a non-tombstone
fact *exists* at a more specific level is therefore false; only the version
of the *most recent* fact at the level matters. -/
theorem c2_counterexample :
    (⟨1, 1, "B", "P", 5, some true⟩ : Fact) ∈ c2db.opts ∧
    findSite c2db 1 = some ⟨1, 2, 3⟩ ∧
    subVal c2db.opts 1 "B" "P" 5 2 = none ∧
    subVal c2db.opts 1 "B" "P" 0 2 = some false ∧
    fetch_site_option c2db 1 "B" "P" 5 =
      Except.ok ⟨1, 2, "B", "P", 5, false⟩ :=
  ⟨by decide, rfl, rfl, rfl, rfl⟩

/-- C4 (confirmed): a tombstone at a level is treated as absent at that
level: resolution continues with the remaining, less-specific levels and
reaches the hard-coded fallback only when every level is absent or
tombstoned; it never stops at the tombstone's own level and never jumps
straight to the fallback. -/
theorem c4_tombstone_continuation (db : DB) (site : Nat) (b p : String)
    (d : Int) (r : SiteRow) (hr : findSite db site = some r) :
    fetch_site_option db site b p d = Except.ok
      ⟨site, r.trunk_version_id, b, p, d,
        fetchVal db.opts site b p d r.trunk_version_id⟩ ∧
    (∀ m, latest db.opts site b p d r.trunk_version_id = some m →
      m.on_site = none →
      fetchVal db.opts site b p d r.trunk_version_id =
        (((subVal db.opts site b p 0 r.trunk_version_id).orElse
            (fun _ => subVal db.opts site b "*" 0 r.trunk_version_id)).orElse
            (fun _ => subVal db.opts site "*" "*" 0 r.trunk_version_id)).getD
          true) ∧
    (∀ m, subVal db.opts site b p d r.trunk_version_id = none →
      latest db.opts site b p 0 r.trunk_version_id = some m →
      m.on_site = none →
      fetchVal db.opts site b p d r.trunk_version_id =
        ((subVal db.opts site b "*" 0 r.trunk_version_id).orElse
            (fun _ => subVal db.opts site "*" "*" 0 r.trunk_version_id)).getD
          true) ∧
    (∀ m, subVal db.opts site b p d r.trunk_version_id = none →
      subVal db.opts site b p 0 r.trunk_version_id = none →
      latest db.opts site b "*" 0 r.trunk_version_id = some m →
      m.on_site = none →
      fetchVal db.opts site b p d r.trunk_version_id =
        (subVal db.opts site "*" "*" 0 r.trunk_version_id).getD true) ∧
    (∀ m, subVal db.opts site b p d r.trunk_version_id = none →
      subVal db.opts site b p 0 r.trunk_version_id = none →
      subVal db.opts site b "*" 0 r.trunk_version_id = none →
      latest db.opts site "*" "*" 0 r.trunk_version_id = some m →
      m.on_site = none →
      fetchVal db.opts site b p d r.trunk_version_id = true) := by
  refine ⟨by simp [fetch_site_option, hr], ?_, ?_, ?_, ?_⟩
  · intro m hm hnone
    have h1 : subVal db.opts site b p d r.trunk_version_id = none := by
      simp [subVal, hm, hnone]
    simp [fetchVal, h1, Option.orElse]
  · intro m h1 hm hnone
    have h2 : subVal db.opts site b p 0 r.trunk_version_id = none := by
      simp [subVal, hm, hnone]
    simp [fetchVal, h1, h2, Option.orElse]
  · intro m h1 h2 hm hnone
    have h3 : subVal db.opts site b "*" 0 r.trunk_version_id = none := by
      simp [subVal, hm, hnone]
    simp [fetchVal, h1, h2, h3, Option.orElse]
  · intro m h1 h2 h3 hm hnone
    have h4 : subVal db.opts site "*" "*" 0 r.trunk_version_id = none := by
      simp [subVal, hm, hnone]
    simp [fetchVal, h1, h2, h3, h4, Option.orElse]

/-- C4 witness: a database whose only fact at the exact level is a tombstone;
resolution falls through every level and returns the fallback `true`. -/
theorem c4_tombstone_continuation_witness :
    findSite (DB.mk [⟨1, 1, 2⟩] [⟨1, 1, "B", "P", 5, none⟩]) 1 =
        some ⟨1, 1, 2⟩ ∧
    latest (DB.mk [⟨1, 1, 2⟩] [⟨1, 1, "B", "P", 5, none⟩]).opts 1 "B" "P" 5 1 =
        some ⟨1, 1, "B", "P", 5, none⟩ ∧
    fetch_site_option (DB.mk [⟨1, 1, 2⟩] [⟨1, 1, "B", "P", 5, none⟩])
        1 "B" "P" 5 = Except.ok ⟨1, 1, "B", "P", 5, true⟩ ∧
    fetchVal (DB.mk [⟨1, 1, 2⟩] [⟨1, 1, "B", "P", 5, none⟩]).opts
        1 "B" "P" 5 1 =
      (((subVal (DB.mk [⟨1, 1, 2⟩] [⟨1, 1, "B", "P", 5, none⟩]).opts
          1 "B" "P" 0 1).orElse
          (fun _ => subVal (DB.mk [⟨1, 1, 2⟩] [⟨1, 1, "B", "P", 5, none⟩]).opts
            1 "B" "*" 0 1)).orElse
          (fun _ => subVal (DB.mk [⟨1, 1, 2⟩] [⟨1, 1, "B", "P", 5, none⟩]).opts
            1 "*" "*" 0 1)).getD true := by
  refine ⟨rfl, rfl, rfl, ?_⟩
  exact (c4_tombstone_continuation
      (DB.mk [⟨1, 1, 2⟩] [⟨1, 1, "B", "P", 5, none⟩]) 1 "B" "P" 5
      ⟨1, 1, 2⟩ rfl).2.1 ⟨1, 1, "B", "P", 5, none⟩ rfl rfl

theorem mem_insertOrReplace_elim {fs : List Fact} {r x : Fact}
    (hx : x ∈ insertOrReplace fs r) :
    (x ∈ fs ∧ sameKey x r = false) ∨ x = r := by
  rcases List.mem_append.mp hx with h | h
  · have h2 := List.mem_filter.mp h
    refine Or.inl ⟨h2.1, ?_⟩
    simpa using h2.2
  · simp only [List.mem_singleton] at h
    exact Or.inr h

theorem latest_insertOrReplace_self {s : Nat} {b p : String} {d bound : Int}
    {fs : List Fact} {r : Fact} (hs : r.site_id = s) (hb : r.brand = b)
    (hp : r.pn = p) (hd : r.dp_id = d) (hv : r.version_id = bound) :
    latest (insertOrReplace fs r) s b p d bound = some r := by
  apply latest_eq_of_strict (self_mem_insertOrReplace fs r)
    (lmatch_iff.mpr ⟨hs, hb, hp, hd, le_of_eq hv⟩)
  intro f hf hm hne
  rcases mem_insertOrReplace_elim hf with ⟨_, hk⟩ | hf2
  · obtain ⟨h1, h2, h3, h4, h5⟩ := lmatch_iff.mp hm
    rcases lt_or_eq_of_le h5 with h6 | h6
    · omega
    · exfalso
      have : sameKey f r = true := sameKey_iff.mpr (by
        simp [factKey, h1, h2, h3, h4, h6, hs, hb, hp, hd, hv])
      rw [this] at hk
      cases hk
  · exact absurd hf2 hne

/-- C10 (amended): storing with concrete brand and pn and with `dp_id`
explicitly equal to 0 runs no tombstone cascade (the cascade triggers on
`None` arguments only) and writes the fact at the product-level fill slot
`(brand, pn, 0)`; once the draft is published, a fetch for any option of the
product resolves to the written value whenever the exact level is absent or
tombstoned — but, unlike a true fill, pre-existing more-specific facts are
not tombstoned and still take precedence. -/
theorem c10_explicit_zero_dp (db : DB) (site : Nat) (B P : String) (v : Bool)
    (r : SiteRow) (hr : findSite db site = some r) :
    store_site_option db site (some B) (some P) (some 0) v =
      Except.ok (DB.mk db.sites (insertOrReplace db.opts
        (Fact.mk site r.branch_version_id B P 0 (some v)))) ∧
    (∀ db1 db2 d,
      store_site_option db site (some B) (some P) (some 0) v = .ok db1 →
      publish_site db1 site = .ok db2 →
      fetch_site_option db2 site B P d =
        Except.ok ⟨site, r.branch_version_id, B, P, d,
          (subVal db2.opts site B P d r.branch_version_id).getD v⟩) := by
  have hstore : store_site_option db site (some B) (some P) (some 0) v =
      Except.ok (DB.mk db.sites (insertOrReplace db.opts
        (Fact.mk site r.branch_version_id B P 0 (some v)))) := by
    simp [store_site_option, hr]
  refine ⟨hstore, ?_⟩
  intro db1 db2 d h1 h2
  rw [hstore] at h1
  injection h1 with h1
  subst h1
  have hfind1 : findSite (DB.mk db.sites (insertOrReplace db.opts
      (Fact.mk site r.branch_version_id B P 0 (some v)))) site = some r := hr
  obtain ⟨db2x, hpub, hopts, hfind2⟩ := publish_site_eq hfind1
  rw [hpub] at h2
  injection h2 with h2
  subst h2
  have hsub2 : subVal db2x.opts site B P 0 r.branch_version_id = some v := by
    rw [hopts]
    show ((latest (insertOrReplace db.opts _) site B P 0
      r.branch_version_id).bind Fact.on_site) = some v
    rw [latest_insertOrReplace_self rfl rfl rfl rfl rfl]
    rfl
  have hval : fetchVal db2x.opts site B P d r.branch_version_id =
      (subVal db2x.opts site B P d r.branch_version_id).getD v := by
    cases h1 : subVal db2x.opts site B P d r.branch_version_id with
    | some w => simp [fetchVal, h1, Option.orElse]
    | none => simp [fetchVal, h1, hsub2, Option.orElse]
  simp [fetch_site_option, hfind2, hval]

/-- The explicit-zero trace of the C10 counterexample: a specific fact at
`(B, P, 7)` is published, then a store with `dp_id` passed as the literal 0
is published. -/
def c10a : DB :=
  exec emptyDB [Op.create 1, Op.store 1 (some "B") (some "P") (some 7) false,
    Op.publish 1, Op.store 1 (some "B") (some "P") (some 0) true, Op.publish 1]

/-- The true-fill trace of the C10 counterexample: same, but the second store
omits `dp_id` (a fill), so the cascade tombstones `(B, P, 7)`. -/
def c10b : DB :=
  exec emptyDB [Op.create 1, Op.store 1 (some "B") (some "P") (some 7) false,
    Op.publish 1, Op.store 1 (some "B") (some "P") none true, Op.publish 1]

/-- C10 counterexample: after storing with explicit `dp_id = 0`, the fetch of
option 7 still resolves to the pre-existing specific fact (`false`), whereas
after storing an actual fill the same fetch returns the fill value (`true`) —
so fetches do *not* behave exactly as if a fill had been stored. -/
theorem c10_counterexample :
    (⟨1, 1, "B", "P", 7, some false⟩ : Fact) ∈ c10a.opts ∧
    fetch_site_option c10a 1 "B" "P" 7 =
      Except.ok ⟨1, 2, "B", "P", 7, false⟩ ∧
    fetch_site_option c10b 1 "B" "P" 7 =
      Except.ok ⟨1, 2, "B", "P", 7, true⟩ ∧
    fetch_site_option c10a 1 "B" "P" 7 ≠ fetch_site_option c10b 1 "B" "P" 7 :=
  ⟨by decide, rfl, rfl, by
    intro h
    rw [show fetch_site_option c10a 1 "B" "P" 7 =
        Except.ok ⟨1, 2, "B", "P", 7, false⟩ from rfl,
      show fetch_site_option c10b 1 "B" "P" 7 =
        Except.ok ⟨1, 2, "B", "P", 7, true⟩ from rfl] at h
    cases h⟩

/-- C10 witness: the amended claim on a concrete empty site. -/
theorem c10_explicit_zero_dp_witness :
    findSite (DB.mk [⟨1, 0, 1⟩] []) 1 = some ⟨1, 0, 1⟩ ∧
    store_site_option (DB.mk [⟨1, 0, 1⟩] []) 1 (some "B") (some "P")
        (some 0) true =
      Except.ok (DB.mk [⟨1, 0, 1⟩] [⟨1, 1, "B", "P", 0, some true⟩]) ∧
    fetch_site_option (DB.mk [⟨1, 1, 2⟩] [⟨1, 1, "B", "P", 0, some true⟩])
        1 "B" "P" 9 = Except.ok ⟨1, 1, "B", "P", 9, true⟩ := by
  refine ⟨rfl, ?_, ?_⟩
  · exact (c10_explicit_zero_dp (DB.mk [⟨1, 0, 1⟩] []) 1 "B" "P" true
      ⟨1, 0, 1⟩ rfl).1
  · exact (c10_explicit_zero_dp (DB.mk [⟨1, 0, 1⟩] []) 1 "B" "P" true
      ⟨1, 0, 1⟩ rfl).2
      (DB.mk [⟨1, 0, 1⟩] [⟨1, 1, "B", "P", 0, some true⟩])
      (DB.mk [⟨1, 1, 2⟩] [⟨1, 1, "B", "P", 0, some true⟩]) 9 rfl rfl

/-! ## The version-counter invariant (C6) -/

/-- Invariant of the `sites` table: every row's trunk (published) version is
strictly below its branch (pending) version. -/
def SitesOK (db : DB) : Prop :=
  ∀ r ∈ db.sites, r.trunk_version_id < r.branch_version_id

instance : DecidablePred SitesOK := fun db =>
  inferInstanceAs
    (Decidable (∀ r ∈ db.sites, r.trunk_version_id < r.branch_version_id))

theorem updFn_ok {l : List SiteRow} (site0 : Nat)
    (hok : ∀ r ∈ l, r.trunk_version_id < r.branch_version_id) :
    ∀ r ∈ l.map (updFn site0), r.trunk_version_id < r.branch_version_id := by
  intro r hr
  obtain ⟨x, hx, hxr⟩ := List.mem_map.mp hr
  subst hxr
  by_cases hx0 : (x.site_id == site0) = true
  · simp [updFn, hx0]
  · simpa [updFn, hx0] using hok x hx

theorem updFn_mono {l : List SiteRow} {site : Nat} {r : SiteRow} (site0 : Nat)
    (hok : ∀ x ∈ l, x.trunk_version_id < x.branch_version_id)
    (h : l.find? (fun s => s.site_id == site) = some r) :
    ∃ r2, (l.map (updFn site0)).find? (fun s => s.site_id == site) = some r2 ∧
      r.trunk_version_id ≤ r2.trunk_version_id ∧
      r.branch_version_id ≤ r2.branch_version_id := by
  have hu : ∀ x : SiteRow, (updFn site0 x).site_id = x.site_id := by
    intro x
    by_cases hx : (x.site_id == site0) = true
    · simp [updFn, hx]
    · simp [updFn, hx]
  refine ⟨updFn site0 r, find?_map_site _ hu h, ?_, ?_⟩
  · by_cases hx : (r.site_id == site0) = true
    · simp only [updFn, hx, if_pos]
      exact le_of_lt (hok r (List.mem_of_find?_eq_some h))
    · simp [updFn, hx]
  · by_cases hx : (r.site_id == site0) = true
    · simp only [updFn, hx, if_pos]
      omega
    · simp [updFn, hx]

theorem find?_filter_ne {l : List SiteRow} {site s0 : Nat} (hne : site ≠ s0) :
    (l.filter (fun s => !(s.site_id == s0))).find?
        (fun s => s.site_id == site) =
      l.find? (fun s => s.site_id == site) := by
  induction l with
  | nil => rfl
  | cons x l ih =>
    by_cases hx0 : (x.site_id == s0) = true
    · have hxs : (x.site_id == site) = false := by
        have h1 : x.site_id = s0 := by simpa using hx0
        simp [h1, Ne.symm hne]
      rw [List.filter_cons_of_neg (by simp [hx0]), List.find?_cons, hxs]
      exact ih
    · rw [List.filter_cons_of_pos (by simp [hx0]), List.find?_cons,
        List.find?_cons]
      cases hxs : x.site_id == site with
      | true => rfl
      | false => exact ih

theorem find?_append_left {l1 l2 : List SiteRow} {p : SiteRow → Bool}
    {r : SiteRow} (h : l1.find? p = some r) : (l1 ++ l2).find? p = some r := by
  induction l1 with
  | nil => cases h
  | cons x l1 ih =>
    rw [List.find?_cons] at h
    rw [List.cons_append, List.find?_cons]
    cases hx : p x with
    | true =>
      rw [hx] at h
      exact h
    | false =>
      rw [hx] at h
      exact ih h

theorem applyOp_step (db : DB) (op : Op) (hok : SitesOK db)
    (hfresh : ∀ s, op = Op.create s → findSite db s = none) :
    SitesOK (applyOp db op) ∧
    (∀ site r, findSite db site = some r →
      ∃ r2, findSite (applyOp db op) site = some r2 ∧
        r.trunk_version_id ≤ r2.trunk_version_id ∧
        r.branch_version_id ≤ r2.branch_version_id) := by
  cases op with
  | create s0 =>
    have hnone : findSite db s0 = none := hfresh s0 rfl
    constructor
    · intro r hr
      simp only [applyOp, create_site] at hr
      rcases List.mem_append.mp hr with h1 | h1
      · exact hok r (List.mem_filter.mp h1).1
      · simp only [List.mem_singleton] at h1
        subst h1
        exact zero_lt_one
    · intro site r h
      have hne : site ≠ s0 := by
        intro he
        subst he
        rw [h] at hnone
        cases hnone
      refine ⟨r, ?_, le_refl _, le_refl _⟩
      simp only [applyOp, create_site, findSite]
      apply find?_append_left
      rw [find?_filter_ne hne]
      exact h
  | store s0 b p d v =>
    cases hs : findSite db s0 with
    | none =>
      simp only [applyOp, store_site_option, hs]
      exact ⟨hok, fun site r h => ⟨r, h, le_refl _, le_refl _⟩⟩
    | some s =>
      simp only [applyOp, store_site_option, hs]
      exact ⟨hok, fun site r h => ⟨r, h, le_refl _, le_refl _⟩⟩
  | publish s0 =>
    cases hs : findSite db s0 with
    | none =>
      simp only [applyOp, publish_site, hs]
      exact ⟨hok, fun site r h => ⟨r, h, le_refl _, le_refl _⟩⟩
    | some s =>
      simp only [applyOp, publish_site, hs]
      exact ⟨updFn_ok s0 hok, fun site r h => updFn_mono s0 hok h⟩
  | rollback s0 toV =>
    cases hs : findSite db s0 with
    | none =>
      simp only [applyOp, rollback_site, hs]
      exact ⟨hok, fun site r h => ⟨r, h, le_refl _, le_refl _⟩⟩
    | some s =>
      have hs2 : findSite
          { db with opts := rollbackFacts db.opts s0 toV s.branch_version_id }
          s0 = some s := hs
      simp only [applyOp, rollback_site, hs, publish_site, hs2]
      exact ⟨updFn_ok s0 hok, fun site r h => updFn_mono s0 hok h⟩
  | fetch s0 b p d =>
    exact ⟨hok, fun site r h => ⟨r, h, le_refl _, le_refl _⟩⟩

/-- C6 (amended): provided no `create` in the sequence targets an
already-registered site (re-registration resets the counters via INSERT OR
REPLACE and is excluded), every registered site keeps pending strictly above
published after any operation sequence, and both counters are monotonically
non-decreasing across the sequence. -/
theorem c6_monotone_versions (db : DB) (ops : List Op) (hok : SitesOK db)
    (hfresh : freshCreates db ops = true) :
    SitesOK (exec db ops) ∧
    (∀ site r r2, findSite db site = some r →
      findSite (exec db ops) site = some r2 →
      r.trunk_version_id ≤ r2.trunk_version_id ∧
      r.branch_version_id ≤ r2.branch_version_id) := by
  induction ops generalizing db with
  | nil =>
    refine ⟨hok, ?_⟩
    intro site r r2 h1 h2
    have h3 : findSite db site = some r2 := h2
    rw [h1] at h3
    cases h3
    exact ⟨le_refl _, le_refl _⟩
  | cons op ops ih =>
    have hsplit : (createFreshOK db op &&
        freshCreates (applyOp db op) ops) = true := hfresh
    rw [Bool.and_eq_true] at hsplit
    obtain ⟨hhd, htl⟩ := hsplit
    have hfr : ∀ s, op = Op.create s → findSite db s = none := by
      intro s he
      subst he
      have h3 : (findSite db s).isNone = true := hhd
      exact Option.isNone_iff_eq_none.mp h3
    obtain ⟨hok2, hmono⟩ := applyOp_step db op hok hfr
    obtain ⟨hok3, hmono3⟩ := ih (applyOp db op) hok2 htl
    refine ⟨hok3, ?_⟩
    intro site r r2 h1 h2
    obtain ⟨r1, hr1, ht1, hb1⟩ := hmono site r h1
    obtain ⟨ht2, hb2⟩ := hmono3 site r1 r2 hr1 h2
    exact ⟨le_trans ht1 ht2, le_trans hb1 hb2⟩

/-- C6 witness: the amended claim on a concrete create-store-publish trace. -/
theorem c6_monotone_versions_witness :
    SitesOK emptyDB ∧
    freshCreates emptyDB [Op.create 1,
      Op.store 1 (some "B") (some "P") (some 5) true, Op.publish 1] = true ∧
    SitesOK (exec emptyDB [Op.create 1,
      Op.store 1 (some "B") (some "P") (some 5) true, Op.publish 1]) ∧
    (∀ site r r2, findSite emptyDB site = some r →
      findSite (exec emptyDB [Op.create 1,
        Op.store 1 (some "B") (some "P") (some 5) true, Op.publish 1]) site =
          some r2 →
      r.trunk_version_id ≤ r2.trunk_version_id ∧
      r.branch_version_id ≤ r2.branch_version_id) := by
  refine ⟨by decide, by decide, ?_⟩
  exact c6_monotone_versions emptyDB [Op.create 1,
    Op.store 1 (some "B") (some "P") (some 5) true, Op.publish 1]
    (by decide) (by decide)

/-- C6 counterexample: `create_site` uses INSERT OR REPLACE, so creating an
already-registered site resets its counters: after create-publish the site
has published version 1, and a second create drops it back to 0 — the
published version is not monotonically non-decreasing over sequences that
re-register a site. -/
theorem c6_counterexample :
    findSite (exec emptyDB [Op.create 1, Op.publish 1]) 1 = some ⟨1, 1, 2⟩ ∧
    findSite (exec emptyDB [Op.create 1, Op.publish 1, Op.create 1]) 1 =
      some ⟨1, 0, 1⟩ ∧
    ¬((1 : Int) ≤ 0) :=
  ⟨rfl, rfl, by decide⟩

/-! ## Rollback's effect on the fact table (C9, C8) -/

theorem rollbackFacts_split (fs : List Fact) (site : Nat) (toV br : Int) :
    (∀ f ∈ fs, f.version_id ≠ br → f ∈ rollbackFacts fs site toV br) ∧
    (∀ f ∈ rollbackFacts fs site toV br, f ∈ fs ∨ f.version_id = br) := by
  constructor
  · intro f hf hne
    have h1 : f ∈ fs.filter (fun f => !(f.version_id == br)) :=
      List.mem_filter.mpr ⟨hf, by simp [hne]⟩
    exact List.mem_append.mpr (Or.inl (List.mem_append.mpr (Or.inl h1)))
  · intro f hf
    rcases List.mem_append.mp hf with h1 | h1
    · rcases List.mem_append.mp h1 with h2 | h2
      · exact Or.inl (List.mem_filter.mp h2).1
      · obtain ⟨a, _, ha⟩ := List.mem_map.mp h2
        subst ha
        exact Or.inr rfl
    · obtain ⟨k, _, hk⟩ := List.mem_map.mp h1
      subst hk
      exact Or.inr rfl

/-- C9 (amended): rollback deletes exactly the facts at the site's pending
(branch) version — of any site, since the source's DELETE carries no site
filter — and appends new facts only at the pending version; every fact whose
version differs from the pending version is preserved, and in particular
(when published < pending) every fact with version at or below the
pre-rollback published version is still present unchanged and hence
retrievable by a latest-at-or-before query at its original version. -/
theorem c9_history_preservation (db : DB) (site : Nat) (toV : Int)
    (r : SiteRow) (hr : findSite db site = some r) :
    ∃ db2, rollback_site db site toV = .ok db2 ∧
      (∀ f ∈ db.opts, f.version_id ≠ r.branch_version_id → f ∈ db2.opts) ∧
      (r.trunk_version_id < r.branch_version_id →
        ∀ f ∈ db.opts, f.version_id ≤ r.trunk_version_id → f ∈ db2.opts) ∧
      (∀ f ∈ db2.opts, f ∈ db.opts ∨ f.version_id = r.branch_version_id) := by
  have hfind1 : findSite
      { db with opts := rollbackFacts db.opts site toV r.branch_version_id }
      site = some r := hr
  obtain ⟨db2, hpub, hopts, _⟩ := publish_site_eq hfind1
  have hroll : rollback_site db site toV = .ok db2 := by
    simp only [rollback_site, hr]
    exact hpub
  obtain ⟨hkeep, hsub⟩ :=
    rollbackFacts_split db.opts site toV r.branch_version_id
  refine ⟨db2, hroll, ?_, ?_, ?_⟩
  · intro f hf hne
    rw [hopts]
    exact hkeep f hf hne
  · intro hlt f hf hle
    rw [hopts]
    exact hkeep f hf (by omega)
  · intro f hf
    rw [hopts] at hf
    exact hsub f hf

/-- C9 witness: the amended claim on a concrete one-site database. -/
theorem c9_history_preservation_witness :
    findSite (DB.mk [⟨1, 1, 2⟩] [⟨1, 1, "B", "P", 5, some false⟩]) 1 =
        some ⟨1, 1, 2⟩ ∧
    (∃ db2, rollback_site
        (DB.mk [⟨1, 1, 2⟩] [⟨1, 1, "B", "P", 5, some false⟩]) 1 1 =
          .ok db2 ∧
      (∀ f ∈ (DB.mk [⟨1, 1, 2⟩] [⟨1, 1, "B", "P", 5, some false⟩]).opts,
        f.version_id ≠ (2 : Int) → f ∈ db2.opts) ∧
      ((1 : Int) < 2 →
        ∀ f ∈ (DB.mk [⟨1, 1, 2⟩] [⟨1, 1, "B", "P", 5, some false⟩]).opts,
        f.version_id ≤ (1 : Int) → f ∈ db2.opts) ∧
      (∀ f ∈ db2.opts,
        f ∈ (DB.mk [⟨1, 1, 2⟩] [⟨1, 1, "B", "P", 5, some false⟩]).opts ∨
          f.version_id = (2 : Int))) :=
  ⟨rfl, c9_history_preservation
    (DB.mk [⟨1, 1, 2⟩] [⟨1, 1, "B", "P", 5, some false⟩]) 1 1 ⟨1, 1, 2⟩ rfl⟩

/-- The state used in the C9 counterexample: one draft fact staged at the
pending version 1, never published. -/
def c9db : DB :=
  exec emptyDB [Op.create 1, Op.store 1 (some "B") (some "P") (some 5) true]

/-- C9 counterexample: the draft fact staged at the pending version exists
before the rollback but is deleted by it (the resulting fact table is empty),
so it is not retrievable at its original version afterwards — rollback does
delete facts, refuting the claim that every fact existing before the rollback
is still retrievable and that rollback only appends. -/
theorem c9_counterexample :
    (⟨1, 1, "B", "P", 5, some true⟩ : Fact) ∈ c9db.opts ∧
    rollback_site c9db 1 0 = Except.ok (DB.mk [⟨1, 1, 2⟩] []) ∧
    (⟨1, 1, "B", "P", 5, some true⟩ : Fact) ∉
      (DB.mk [⟨1, 1, 2⟩] ([] : List Fact)).opts :=
  ⟨by decide, rfl, by decide⟩

/-- The state used in the C8 failing input: two registered sites; site 2 has
a draft fact staged at its pending version 1, which is also site 1's pending
version. -/
def c8db : DB :=
  exec emptyDB [Op.create 1, Op.create 2,
    Op.store 2 (some "B") (some "P") (some 5) true]

/-- C8 (code bug): rolling back site 1 deletes site 2's fact.  The source's
`DELETE FROM site_options WHERE version_id=:branch_version_id` carries no
`site_id` filter (the prepared `site_id` parameter is unused in that
statement, unlike every other query), so the rollback of one site destroys
any other site's rows whose version number equals the rolled-back site's
pending version. -/
theorem c8_cross_site_delete :
    (⟨2, 1, "B", "P", 5, some true⟩ : Fact) ∈ c8db.opts ∧
    rollback_site c8db 1 0 = Except.ok (DB.mk [⟨1, 1, 2⟩, ⟨2, 0, 1⟩] []) ∧
    (⟨2, 1, "B", "P", 5, some true⟩ : Fact) ∉
      (DB.mk [⟨1, 1, 2⟩, ⟨2, 0, 1⟩] ([] : List Fact)).opts :=
  ⟨by decide, rfl, by decide⟩

/-! ## The tombstone cascade (C3) -/

/-- The brand/pn part of the cascade's WHERE clause: a key is covered when it
matches every *truthy* field the fill specifies (any value on omitted or
falsy fields). -/
def coveredBP (brand pn : Option String) (b0 p0 : String) : Bool :=
  (match brand with
   | none => true
   | some s => if s == "" then true else b0 == s) &&
  (match pn with
   | none => true
   | some s => if s == "" then true else p0 == s)

theorem predMatch_iff_dp_none {site : Nat} {bv : Int} {brand pn : Option String}
    {f : Fact} :
    predMatch site bv brand pn none f = true ↔
      f.site_id = site ∧ f.version_id ≤ bv ∧
        coveredBP brand pn f.brand f.pn = true := by
  simp [predMatch, coveredBP, and_assoc]

theorem coveredBP_sentinel (brand pn : Option String) :
    coveredBP brand pn (brand.getD "*") (pn.getD "*") = true := by
  have h1 : (match brand with
      | none => true
      | some s => if s == "" then true else (brand.getD "*") == s) = true := by
    cases brand with
    | none => rfl
    | some s =>
      by_cases hs : (s == "") = true
      · simp [hs]
      · simp [hs]
  have h2 : (match pn with
      | none => true
      | some s => if s == "" then true else (pn.getD "*") == s) = true := by
    cases pn with
    | none => rfl
    | some s =>
      by_cases hs : (s == "") = true
      · simp [hs]
      · simp [hs]
  rw [coveredBP.eq_def, h1, h2]
  rfl

theorem cascadeTombstones_eq (fs : List Fact) (site : Nat) (bv : Int)
    (brand pn : Option String) (dp : Option Int) :
    cascadeTombstones fs site bv brand pn dp =
      ((fs.filter (isCascadeSource fs site bv brand pn dp)).map
        (fun a => Fact.mk site bv a.brand a.pn a.dp_id none)).foldl
        insertOrReplace fs := by
  rw [cascadeTombstones, List.foldl_map]

theorem cascade_source_of_covered {fs : List Fact} {site : Nat} {bv : Int}
    {brand pn : Option String} {a : Fact} (ha : a ∈ fs)
    (hsite : a.site_id = site) (hver : a.version_id ≤ bv)
    (hcov : coveredBP brand pn a.brand a.pn = true) :
    ∃ w ∈ fs, isCascadeSource fs site bv brand pn none w = true ∧
      w.site_id = site ∧ w.brand = a.brand ∧ w.pn = a.pn ∧
      w.dp_id = a.dp_id ∧ w.version_id ≤ bv := by
  have hm : lmatch site a.brand a.pn a.dp_id bv a = true :=
    lmatch_iff.mpr ⟨hsite, rfl, rfl, rfl, hver⟩
  obtain ⟨w, hw⟩ := latest_isSome_of_mem ha hm
  obtain ⟨hmem, _, hmax⟩ := latestFrom_eq_some hw
  rcases hmem with h | ⟨hwmem, hwl⟩
  · cases h
  obtain ⟨hws, hwb, hwp, hwd, hwv⟩ := lmatch_iff.mp hwl
  refine ⟨w, hwmem, ?_, hws, hwb, hwp, hwd, hwv⟩
  rw [isCascadeSource, Bool.and_eq_true]
  constructor
  · simp [hws]
  · apply List.any_eq_true.mpr
    refine ⟨w, hwmem, ?_⟩
    have hpm : predMatch site bv brand pn none w = true :=
      predMatch_iff_dp_none.mpr ⟨hws, hwv, by rw [hwb, hwp]; exact hcov⟩
    have hbad : fs.any (fun u =>
        predMatch site bv brand pn none u &&
        u.brand == w.brand && u.pn == w.pn && u.dp_id == w.dp_id &&
        w.version_id < u.version_id) = false := by
      rw [List.any_eq_false]
      intro u hu
      intro hb
      rw [Bool.and_eq_true, Bool.and_eq_true, Bool.and_eq_true,
        Bool.and_eq_true] at hb
      obtain ⟨⟨⟨⟨hu1, hu2⟩, hu3⟩, hu4⟩, hu5⟩ := hb
      obtain ⟨hus, huv, _⟩ := predMatch_iff_dp_none.mp hu1
      have hul : lmatch site a.brand a.pn a.dp_id bv u = true := by
        apply lmatch_iff.mpr
        refine ⟨hus, ?_, ?_, ?_, huv⟩
        · rw [← hwb]
          simpa using hu2
        · rw [← hwp]
          simpa using hu3
        · rw [← hwd]
          simpa using hu4
      have := hmax u hu hul
      have hlt : w.version_id < u.version_id := by simpa using hu5
      omega
    simp [hpm, hbad]

theorem cascade_source_elim {fs : List Fact} {site : Nat} {bv : Int}
    {brand pn : Option String} {x : Fact}
    (hx : isCascadeSource fs site bv brand pn none x = true) :
    x.site_id = site ∧ x.version_id ≤ bv ∧
      coveredBP brand pn x.brand x.pn = true := by
  rw [isCascadeSource, Bool.and_eq_true] at hx
  obtain ⟨h1, h2⟩ := hx
  obtain ⟨w, hwmem, hw⟩ := List.any_eq_true.mp h2
  rw [Bool.and_eq_true, Bool.and_eq_true, Bool.and_eq_true,
    Bool.and_eq_true] at hw
  obtain ⟨⟨⟨⟨hw1, hw2⟩, hw3⟩, hw4⟩, _⟩ := hw
  obtain ⟨_, hwv, hwc⟩ := predMatch_iff_dp_none.mp hw1
  have hb : w.brand = x.brand := by simpa using hw2
  have hp : w.pn = x.pn := by simpa using hw3
  have hv : w.version_id = x.version_id := by simpa using hw4
  refine ⟨by simpa using h1, by omega, ?_⟩
  rw [← hb, ← hp]
  exact hwc

theorem tomb_mem_cascade {fs : List Fact} {site : Nat} {bv : Int}
    {brand pn : Option String} {a : Fact} (ha : a ∈ fs)
    (hsite : a.site_id = site) (hver : a.version_id ≤ bv)
    (hcov : coveredBP brand pn a.brand a.pn = true) :
    Fact.mk site bv a.brand a.pn a.dp_id none ∈
      cascadeTombstones fs site bv brand pn none := by
  obtain ⟨w, hwmem, hwsrc, _, hwb, hwp, hwd, _⟩ :=
    cascade_source_of_covered ha hsite hver hcov
  rw [cascadeTombstones_eq]
  apply mem_foldl_ir_of_mem_rs
  · apply List.mem_map.mpr
    refine ⟨w, List.mem_filter.mpr ⟨hwmem, hwsrc⟩, ?_⟩
    rw [hwb, hwp, hwd]
  · intro q hq hk
    obtain ⟨x, _, hxq⟩ := List.mem_map.mp hq
    subst hxq
    have h2 := sameKey_iff.mp hk
    simp only [factKey, Prod.mk.injEq, Fact.mk.injEq] at h2
    obtain ⟨_, _, h3, h4, h5⟩ := h2
    simp [h3, h4, h5]

/-- C3 (amended): for a fill write with `dp_id` omitted, before inserting the
fill the operation writes a tombstone at the current draft version for every
key covered by the fill's brand/pn predicates that has at least one fact with
version at or before the draft version — including keys whose most recent
fact is already a tombstone, and the fill's own sentinel slot (whose tombstone
the subsequent fill insert overwrites) — and for no other key; facts at other
sites, at other versions, or at keys not covered by the predicates are left
unaffected. -/
theorem c3_fill_cascade (db : DB) (site : Nat) (brand pn : Option String)
    (v : Bool) (r : SiteRow) (hr : findSite db site = some r) :
    ∃ db2, store_site_option db site brand pn none v = .ok db2 ∧
      (∀ a ∈ db.opts, a.site_id = site → a.version_id ≤ r.branch_version_id →
        coveredBP brand pn a.brand a.pn = true →
        ¬(a.brand = brand.getD "*" ∧ a.pn = pn.getD "*" ∧ a.dp_id = 0) →
        Fact.mk site r.branch_version_id a.brand a.pn a.dp_id none ∈
          db2.opts) ∧
      Fact.mk site r.branch_version_id (brand.getD "*") (pn.getD "*") 0
        (some v) ∈ db2.opts ∧
      (∀ f ∈ db2.opts, f ∈ db.opts ∨
        (f.site_id = site ∧ f.version_id = r.branch_version_id ∧
          (f.on_site = none →
            coveredBP brand pn f.brand f.pn = true ∧
            ∃ aa ∈ db.opts, aa.site_id = site ∧
              aa.version_id ≤ r.branch_version_id ∧ aa.brand = f.brand ∧
              aa.pn = f.pn ∧ aa.dp_id = f.dp_id))) ∧
      (∀ f ∈ db.opts,
        ¬(f.site_id = site ∧ f.version_id = r.branch_version_id ∧
          coveredBP brand pn f.brand f.pn = true) → f ∈ db2.opts) := by
  have hstore : store_site_option db site brand pn none v =
      Except.ok (DB.mk db.sites (insertOrReplace
        (cascadeTombstones db.opts site r.branch_version_id brand pn none)
        (Fact.mk site r.branch_version_id (brand.getD "*") (pn.getD "*") 0
          (some v)))) := by
    simp [store_site_option, hr]
  refine ⟨_, hstore, ?_, self_mem_insertOrReplace _ _, ?_, ?_⟩
  · intro a ha hs hv hcov hne
    have htomb := tomb_mem_cascade ha hs hv hcov
    apply mem_insertOrReplace_of_mem htomb
    cases hk : sameKey (Fact.mk site r.branch_version_id a.brand a.pn a.dp_id
        none) (Fact.mk site r.branch_version_id (brand.getD "*") (pn.getD "*")
        0 (some v)) with
    | false => rfl
    | true =>
      exfalso
      have h2 := sameKey_iff.mp hk
      simp only [factKey, Prod.mk.injEq] at h2
      exact hne ⟨h2.2.2.1, h2.2.2.2.1, h2.2.2.2.2⟩
  · intro f hf
    rcases mem_insertOrReplace_elim hf with ⟨hf2, _⟩ | hf2
    · rw [cascadeTombstones_eq] at hf2
      rcases mem_of_mem_foldl_ir hf2 with h3 | h3
      · exact Or.inl h3
      · obtain ⟨x, hx, hxf⟩ := List.mem_map.mp h3
        have hx2 := List.mem_filter.mp hx
        obtain ⟨hxs, hxv, hxc⟩ := cascade_source_elim hx2.2
        subst hxf
        exact Or.inr ⟨rfl, rfl,
          fun _ => ⟨hxc, x, hx2.1, hxs, hxv, rfl, rfl, rfl⟩⟩
    · subst hf2
      refine Or.inr ⟨rfl, rfl, fun hcontra => ?_⟩
      cases hcontra
  · intro f hf hnc
    apply mem_insertOrReplace_of_mem
    · rw [cascadeTombstones_eq]
      apply mem_foldl_ir hf
      intro q hq hk
      exfalso
      obtain ⟨x, hx, hxq⟩ := List.mem_map.mp hq
      subst hxq
      have h2 := sameKey_iff.mp hk
      simp only [factKey, Prod.mk.injEq] at h2
      obtain ⟨h1, h2, h3, h4, _⟩ := h2
      have hx2 := List.mem_filter.mp hx
      obtain ⟨_, _, hxc⟩ := cascade_source_elim hx2.2
      apply hnc
      refine ⟨h1.symm, h2.symm, ?_⟩
      rw [← h3, ← h4]
      exact hxc
    · cases hk : sameKey f (Fact.mk site r.branch_version_id (brand.getD "*")
          (pn.getD "*") 0 (some v)) with
      | false => rfl
      | true =>
        exfalso
        have h2 := sameKey_iff.mp hk
        simp only [factKey, Prod.mk.injEq] at h2
        obtain ⟨h1, h2, h3, h4, _⟩ := h2
        apply hnc
        refine ⟨h1, h2, ?_⟩
        rw [h3, h4]
        exact coveredBP_sentinel brand pn

/-- C3 witness: the amended claim on a concrete one-site database with a
published specific fact that the fill covers. -/
theorem c3_fill_cascade_witness :
    findSite (DB.mk [⟨1, 1, 2⟩] [⟨1, 1, "B", "P", 5, some true⟩]) 1 =
        some ⟨1, 1, 2⟩ ∧
    (∃ db2, store_site_option
        (DB.mk [⟨1, 1, 2⟩] [⟨1, 1, "B", "P", 5, some true⟩]) 1 (some "B")
        (some "P") none false = .ok db2 ∧
      (∀ a ∈ (DB.mk [⟨1, 1, 2⟩] [⟨1, 1, "B", "P", 5, some true⟩]).opts,
        a.site_id = 1 → a.version_id ≤ (2 : Int) →
        coveredBP (some "B") (some "P") a.brand a.pn = true →
        ¬(a.brand = (some "B").getD "*" ∧ a.pn = (some "P").getD "*" ∧
          a.dp_id = 0) →
        Fact.mk 1 2 a.brand a.pn a.dp_id none ∈ db2.opts) ∧
      Fact.mk 1 2 ((some "B").getD "*") ((some "P").getD "*") 0
        (some false) ∈ db2.opts ∧
      (∀ f ∈ db2.opts,
        f ∈ (DB.mk [⟨1, 1, 2⟩] [⟨1, 1, "B", "P", 5, some true⟩]).opts ∨
        (f.site_id = 1 ∧ f.version_id = (2 : Int) ∧
          (f.on_site = none →
            coveredBP (some "B") (some "P") f.brand f.pn = true ∧
            ∃ aa ∈ (DB.mk [⟨1, 1, 2⟩]
                [⟨1, 1, "B", "P", 5, some true⟩]).opts, aa.site_id = 1 ∧
              aa.version_id ≤ (2 : Int) ∧ aa.brand = f.brand ∧
              aa.pn = f.pn ∧ aa.dp_id = f.dp_id))) ∧
      (∀ f ∈ (DB.mk [⟨1, 1, 2⟩] [⟨1, 1, "B", "P", 5, some true⟩]).opts,
        ¬(f.site_id = 1 ∧ f.version_id = (2 : Int) ∧
          coveredBP (some "B") (some "P") f.brand f.pn = true) →
        f ∈ db2.opts)) :=
  ⟨rfl, c3_fill_cascade
    (DB.mk [⟨1, 1, 2⟩] [⟨1, 1, "B", "P", 5, some true⟩]) 1 (some "B")
    (some "P") false ⟨1, 1, 2⟩ rfl⟩

/-- The state used in the C3 counterexample: key `(B, P, 5)` is specific at
version 1, tombstoned by a fill's cascade at version 2; both versions are
published, so at the draft version 3 the key already resolves to a
tombstone. -/
def c3db : DB :=
  exec emptyDB [Op.create 1, Op.store 1 (some "B") (some "P") (some 5) true,
    Op.publish 1, Op.store 1 (some "B") (some "P") none true, Op.publish 1]

/-- C3 counterexample: before the second fill is stored, the most recent fact
for key `(B, P, 5)` at or before the draft version 3 is already a tombstone
(so the key does not resolve to a non-tombstone value at any more specific
scope), yet the cascade still writes a fresh tombstone for it at version 3 —
keys already tombstoned are *not* left unaffected. -/
theorem c3_counterexample :
    latest c3db.opts 1 "B" "P" 5 3 = some ⟨1, 2, "B", "P", 5, none⟩ ∧
    subVal c3db.opts 1 "B" "P" 5 3 = none ∧
    store_site_option c3db 1 (some "B") (some "P") none false =
      Except.ok (DB.mk [⟨1, 2, 3⟩]
        [⟨1, 1, "B", "P", 5, some true⟩, ⟨1, 2, "B", "P", 5, none⟩,
         ⟨1, 2, "B", "P", 0, some true⟩, ⟨1, 3, "B", "P", 5, none⟩,
         ⟨1, 3, "B", "P", 0, some false⟩]) ∧
    (⟨1, 3, "B", "P", 5, none⟩ : Fact) ∈
      (DB.mk ([⟨1, 2, 3⟩] : List SiteRow)
        [⟨1, 1, "B", "P", 5, some true⟩, ⟨1, 2, "B", "P", 5, none⟩,
         ⟨1, 2, "B", "P", 0, some true⟩, ⟨1, 3, "B", "P", 5, none⟩,
         ⟨1, 3, "B", "P", 0, some false⟩]).opts :=
  ⟨rfl, rfl, rfl, by decide⟩

/-! ## Rollback reconstructs the target snapshot (C1) -/

/-- Step 1 of `rollbackFacts`: the unfiltered DELETE of every row at the
branch version. -/
def rbDel (fs : List Fact) (br : Int) : List Fact :=
  fs.filter (fun f => !(f.version_id == br))

/-- Step 2 of `rollbackFacts`: the copy of per-key latest rows at or before
the target version, re-inserted at the branch version. -/
def rbCopies (fs1 : List Fact) (site : Nat) (toV br : Int) : List Fact :=
  (fs1.filter (fun a =>
      match latest fs1 site a.brand a.pn a.dp_id toV with
      | some m => m.version_id == a.version_id
      | none => false)).map (fun a => { a with version_id := br })

/-- The keys scanned by step 3 of `rollbackFacts`. -/
def rbKeys (fs2 : List Fact) (site : Nat) (br : Int) :
    List (String × String × Int) :=
  (fs2.filterMap (fun f =>
      if f.site_id == site && f.version_id ≤ br then
        some (f.brand, f.pn, f.dp_id)
      else none)).dedup

/-- Step 3 of `rollbackFacts`: tombstones for keys of this site whose latest
row at or before the branch version is not at the branch version. -/
def rbTombs (fs2 : List Fact) (site : Nat) (br : Int) : List Fact :=
  ((rbKeys fs2 site br).filter (fun k =>
      match latest fs2 site k.1 k.2.1 k.2.2 br with
      | some m => !(m.version_id == br)
      | none => false)).map (fun k =>
        Fact.mk site br k.1 k.2.1 k.2.2 none)

theorem rollbackFacts_eq (fs : List Fact) (site : Nat) (toV br : Int) :
    rollbackFacts fs site toV br =
      (rbDel fs br ++ rbCopies (rbDel fs br) site toV br) ++
        rbTombs (rbDel fs br ++ rbCopies (rbDel fs br) site toV br) site br :=
  rfl

theorem mem_rbDel {fs : List Fact} {br : Int} {f : Fact} :
    f ∈ rbDel fs br ↔ f ∈ fs ∧ f.version_id ≠ br := by
  simp [rbDel]

/-- If no fact of `fs0` matches the key at or before the target version, then
no copied row can match the key either: every copy comes from a nonempty
latest-at-or-before-target group at its own key. -/
theorem no_copy_match {fs0 : List Fact} {site : Nat} {V br : Int}
    {b p : String} {d : Int}
    (hnone0 : ∀ f ∈ fs0, lmatch site b p d V f = false) {f : Fact}
    (hf : f ∈ rbCopies (rbDel fs0 br) site V br)
    (hfl : lmatch site b p d br f = true) : False := by
  obtain ⟨a2, ha2, ha2f⟩ := List.mem_map.mp hf
  have ha2filter := List.mem_filter.mp ha2
  subst ha2f
  obtain ⟨hfs, hfb, hfp, hfd, _⟩ := lmatch_iff.mp hfl
  have hab : a2.brand = b := hfb
  have hap : a2.pn = p := hfp
  have had : a2.dp_id = d := hfd
  have hcond := ha2filter.2
  rw [hab, hap, had] at hcond
  cases hg2 : latest (rbDel fs0 br) site b p d V with
  | none =>
    rw [hg2] at hcond
    cases hcond
  | some g2 =>
    obtain ⟨hmem2, _, _⟩ := latestFrom_eq_some hg2
    rcases hmem2 with h | ⟨hg2mem, hg2l⟩
    · cases h
    · have hg2mem0 : g2 ∈ fs0 := (mem_rbDel.mp hg2mem).1
      rw [hnone0 g2 hg2mem0] at hg2l
      cases hg2l

/-- The heart of C1: for every exact key, the latest-at-or-before value seen
through the rollback output at the branch version equals the value seen in
the original table at the target version. -/
theorem rollback_subVal (fs0 : List Fact) (site : Nat) (V br : Int)
    (b p : String) (d : Int) (hw : WellFormedFacts fs0) (hVbr : V < br) :
    subVal (rollbackFacts fs0 site V br) site b p d br =
      subVal fs0 site b p d V := by
  rw [rollbackFacts_eq]
  cases hl0 : latest fs0 site b p d V with
  | some m =>
    obtain ⟨hmemA, _, hmaxA⟩ := latestFrom_eq_some hl0
    rcases hmemA with h | ⟨hmMem, hmL⟩
    · cases h
    obtain ⟨hms, hmb, hmp, hmd, hmv⟩ := lmatch_iff.mp hmL
    have hm1 : m ∈ rbDel fs0 br := mem_rbDel.mpr ⟨hmMem, by omega⟩
    obtain ⟨g, hg⟩ := latest_isSome_of_mem hm1 hmL
    obtain ⟨hgMem, _, hgMax⟩ := latestFrom_eq_some hg
    rcases hgMem with h | ⟨hgMem, hgL⟩
    · cases h
    have hgMem0 : g ∈ fs0 := (mem_rbDel.mp hgMem).1
    have hveq : g.version_id = m.version_id :=
      le_antisymm (hmaxA g hgMem0 hgL) (hgMax m hm1 hmL)
    have hcopyF : (match latest (rbDel fs0 br) site m.brand m.pn m.dp_id V with
        | some mm => mm.version_id == m.version_id
        | none => false) = true := by
      rw [hmb, hmp, hmd, hg]
      simp [hveq]
    have hmCopy : ({ m with version_id := br } : Fact) ∈
        rbCopies (rbDel fs0 br) site V br :=
      List.mem_map.mpr ⟨m, List.mem_filter.mpr ⟨hm1, hcopyF⟩, rfl⟩
    have hm2mem : ({ m with version_id := br } : Fact) ∈
        rbDel fs0 br ++ rbCopies (rbDel fs0 br) site V br :=
      List.mem_append.mpr (Or.inr hmCopy)
    have hm2L : lmatch site b p d br ({ m with version_id := br } : Fact) =
        true := lmatch_iff.mpr ⟨hms, hmb, hmp, hmd, le_refl br⟩
    have hstrict : ∀ f ∈ (rbDel fs0 br ++ rbCopies (rbDel fs0 br) site V br) ++
        rbTombs (rbDel fs0 br ++ rbCopies (rbDel fs0 br) site V br) site br,
        lmatch site b p d br f = true →
        f ≠ ({ m with version_id := br } : Fact) →
        f.version_id < ({ m with version_id := br } : Fact).version_id := by
      intro f hf hfl hne
      obtain ⟨hfs, hfb, hfp, hfd, hfv⟩ := lmatch_iff.mp hfl
      show f.version_id < br
      rcases List.mem_append.mp hf with h1 | h1
      · rcases List.mem_append.mp h1 with h2 | h2
        · have := (mem_rbDel.mp h2).2
          omega
        · exfalso
          obtain ⟨a2, ha2, ha2f⟩ := List.mem_map.mp h2
          have ha2filter := List.mem_filter.mp ha2
          subst ha2f
          have has : a2.site_id = site := hfs
          have hab : a2.brand = b := hfb
          have hap : a2.pn = p := hfp
          have had : a2.dp_id = d := hfd
          have hcond := ha2filter.2
          rw [hab, hap, had, hg] at hcond
          have hva : g.version_id = a2.version_id := by simpa using hcond
          have ha2mem0 : a2 ∈ fs0 := (mem_rbDel.mp ha2filter.1).1
          have hkey : factKey a2 = factKey m := by
            simp only [factKey, Prod.mk.injEq]
            refine ⟨?_, ?_, ?_, ?_, ?_⟩
            · rw [has, hms]
            · omega
            · rw [hab, hmb]
            · rw [hap, hmp]
            · rw [had, hmd]
          have ha2m : a2 = m := List.inj_on_of_nodup_map hw ha2mem0 hmMem hkey
          exact hne (by rw [ha2m])
      · exfalso
        obtain ⟨k, hk, hkf⟩ := List.mem_map.mp h1
        have hkfilter := List.mem_filter.mp hk
        subst hkf
        have hkb : k.1 = b := hfb
        have hkp : k.2.1 = p := hfp
        have hkd : k.2.2 = d := hfd
        have hcond := hkfilter.2
        rw [hkb, hkp, hkd] at hcond
        obtain ⟨mt, hmt⟩ := latest_isSome_of_mem hm2mem hm2L
        rw [hmt] at hcond
        obtain ⟨hmtmem, _, hmtmax⟩ := latestFrom_eq_some hmt
        rcases hmtmem with h | ⟨hmtmem, hmtL⟩
        · cases h
        have h5 := hmtmax _ hm2mem hm2L
        obtain ⟨_, _, _, _, hmtv⟩ := lmatch_iff.mp hmtL
        have h6 : br ≤ mt.version_id := h5
        have h7 : mt.version_id = br := by omega
        have hcond2 : (!(mt.version_id == br)) = true := hcond
        rw [h7] at hcond2
        simp at hcond2
    have hm3mem : ({ m with version_id := br } : Fact) ∈
        (rbDel fs0 br ++ rbCopies (rbDel fs0 br) site V br) ++
          rbTombs (rbDel fs0 br ++ rbCopies (rbDel fs0 br) site V br)
            site br :=
      List.mem_append.mpr (Or.inl hm2mem)
    have hlR := latest_eq_of_strict hm3mem hm2L hstrict
    rw [subVal, subVal, hlR, hl0]
    rfl
  | none =>
    have hnone0 : ∀ f ∈ fs0, lmatch site b p d V f = false :=
      (latestFrom_eq_none hl0).2
    have hRHS : subVal fs0 site b p d V = none := by
      rw [subVal, hl0]
      rfl
    rw [hRHS]
    cases hl2 : latest (rbDel fs0 br ++ rbCopies (rbDel fs0 br) site V br)
        site b p d br with
    | some mm =>
      obtain ⟨hmmMemO, _, _⟩ := latestFrom_eq_some hl2
      rcases hmmMemO with h | ⟨hmmMem, hmmL⟩
      · cases h
      obtain ⟨hmms, hmmb, hmmp, hmmd, hmmv⟩ := lmatch_iff.mp hmmL
      have hmmver : mm.version_id ≠ br := by
        intro he
        rcases List.mem_append.mp hmmMem with h2 | h2
        · exact (mem_rbDel.mp h2).2 he
        · exact no_copy_match hnone0 h2 hmmL
      have hkmem : (b, p, d) ∈ rbKeys
          (rbDel fs0 br ++ rbCopies (rbDel fs0 br) site V br) site br := by
        rw [rbKeys]
        apply List.mem_dedup.mpr
        apply List.mem_filterMap.mpr
        refine ⟨mm, hmmMem, ?_⟩
        rw [if_pos (by simp [hmms, hmmv])]
        rw [hmmb, hmmp, hmmd]
      have htf : (match latest
          (rbDel fs0 br ++ rbCopies (rbDel fs0 br) site V br)
          site b p d br with
          | some mt => !(mt.version_id == br)
          | none => false) = true := by
        rw [hl2]
        simp [hmmver]
      have htomb : Fact.mk site br b p d none ∈ rbTombs
          (rbDel fs0 br ++ rbCopies (rbDel fs0 br) site V br) site br :=
        List.mem_map.mpr ⟨(b, p, d), List.mem_filter.mpr ⟨hkmem, htf⟩, rfl⟩
      have htmem : Fact.mk site br b p d none ∈
          (rbDel fs0 br ++ rbCopies (rbDel fs0 br) site V br) ++
            rbTombs (rbDel fs0 br ++ rbCopies (rbDel fs0 br) site V br)
              site br :=
        List.mem_append.mpr (Or.inr htomb)
      have htL : lmatch site b p d br (Fact.mk site br b p d none) = true :=
        lmatch_iff.mpr ⟨rfl, rfl, rfl, rfl, le_refl br⟩
      have hstrict : ∀ f ∈ (rbDel fs0 br ++
          rbCopies (rbDel fs0 br) site V br) ++
          rbTombs (rbDel fs0 br ++ rbCopies (rbDel fs0 br) site V br) site br,
          lmatch site b p d br f = true →
          f ≠ Fact.mk site br b p d none →
          f.version_id < (Fact.mk site br b p d none).version_id := by
        intro f hf hfl hne
        obtain ⟨hfs, hfb, hfp, hfd, hfv⟩ := lmatch_iff.mp hfl
        show f.version_id < br
        rcases List.mem_append.mp hf with h1 | h1
        · rcases List.mem_append.mp h1 with h2 | h2
          · have := (mem_rbDel.mp h2).2
            omega
          · exact absurd (no_copy_match hnone0 h2 hfl) (fun h => h)
        · exfalso
          obtain ⟨k2, hk2, hk2f⟩ := List.mem_map.mp h1
          subst hk2f
          apply hne
          have hkb : k2.1 = b := hfb
          have hkp : k2.2.1 = p := hfp
          have hkd : k2.2.2 = d := hfd
          rw [hkb, hkp, hkd]
      have hlR := latest_eq_of_strict htmem htL hstrict
      rw [subVal, hlR]
      rfl
    | none =>
      have hnone2 := (latestFrom_eq_none hl2).2
      have hlR : latest ((rbDel fs0 br ++
          rbCopies (rbDel fs0 br) site V br) ++
          rbTombs (rbDel fs0 br ++ rbCopies (rbDel fs0 br) site V br) site br)
          site b p d br = none := by
        apply latest_eq_none_of_forall
        intro f hf
        rcases List.mem_append.mp hf with h1 | h1
        · exact hnone2 f h1
        · cases hfl : lmatch site b p d br f with
          | false => rfl
          | true =>
            exfalso
            obtain ⟨k2, hk2, hk2f⟩ := List.mem_map.mp h1
            have hk2filter := List.mem_filter.mp hk2
            obtain ⟨_, hfb, hfp, hfd, _⟩ := lmatch_iff.mp hfl
            subst hk2f
            have hkb : k2.1 = b := hfb
            have hkp : k2.2.1 = p := hfp
            have hkd : k2.2.2 = d := hfd
            have hcond := hk2filter.2
            rw [hkb, hkp, hkd, hl2] at hcond
            cases hcond
      rw [subVal, hlR]
      rfl

theorem fetchVal_congr {fs1 fs2 : List Fact} {s : Nat} {b p : String}
    {d : Int} {bound1 bound2 : Int}
    (h : ∀ b2 p2 d2, subVal fs1 s b2 p2 d2 bound1 =
      subVal fs2 s b2 p2 d2 bound2) :
    fetchVal fs1 s b p d bound1 = fetchVal fs2 s b p d bound2 := by
  rw [fetchVal, fetchVal, h, h, h, h]

/-- C1 (confirmed): on a well-formed fact table (the unique-index invariant)
with the site registered and published strictly below pending, rolling back
to any version V at or before the published version and then fetching — with
no writes in between; rollback itself ends by publishing — returns, for
every key, exactly the on_site boolean that fetch would compute with the
published version set to V over the pre-rollback facts. -/
theorem c1_rollback_then_fetch (db : DB) (site : Nat) (V : Int)
    (b p : String) (d : Int) (r : SiteRow) (hw : WellFormedFacts db.opts)
    (hr : findSite db site = some r)
    (hlt : r.trunk_version_id < r.branch_version_id)
    (hV : V ≤ r.trunk_version_id) :
    (rollback_site db site V).bind
        (fun db2 => fetch_site_option db2 site b p d) =
      Except.ok (SiteOption.mk site r.branch_version_id b p d
        (fetchVal db.opts site b p d V)) := by
  have hfind1 : findSite
      { db with opts := rollbackFacts db.opts site V r.branch_version_id }
      site = some r := hr
  obtain ⟨db2, hpub, hopts, hfind2⟩ := publish_site_eq hfind1
  have hroll : rollback_site db site V = .ok db2 := by
    simp only [rollback_site, hr]
    exact hpub
  rw [hroll]
  show fetch_site_option db2 site b p d = _
  have hval : fetchVal db2.opts site b p d r.branch_version_id =
      fetchVal db.opts site b p d V := by
    apply fetchVal_congr
    intro b2 p2 d2
    rw [hopts]
    show subVal (rollbackFacts db.opts site V r.branch_version_id)
      site b2 p2 d2 r.branch_version_id = _
    exact rollback_subVal db.opts site V r.branch_version_id b2 p2 d2 hw
      (by omega)
  simp [fetch_site_option, hfind2, hval]

/-- C1 witness: rollback to version 1 (the published version) of a concrete
one-fact site, then fetch; the result matches the historical fetch value. -/
theorem c1_rollback_then_fetch_witness :
    WellFormedFacts (DB.mk [⟨1, 1, 2⟩]
      [⟨1, 1, "B", "P", 5, some false⟩]).opts ∧
    findSite (DB.mk [⟨1, 1, 2⟩] [⟨1, 1, "B", "P", 5, some false⟩]) 1 =
      some ⟨1, 1, 2⟩ ∧
    (1 : Int) < 2 ∧ (1 : Int) ≤ 1 ∧
    (rollback_site (DB.mk [⟨1, 1, 2⟩] [⟨1, 1, "B", "P", 5, some false⟩])
        1 1).bind (fun db2 => fetch_site_option db2 1 "B" "P" 5) =
      Except.ok (SiteOption.mk 1 2 "B" "P" 5 false) :=
  ⟨by decide, rfl, by decide, by decide,
    c1_rollback_then_fetch
      (DB.mk [⟨1, 1, 2⟩] [⟨1, 1, "B", "P", 5, some false⟩]) 1 1 "B" "P" 5
      ⟨1, 1, 2⟩ (by decide) rfl (by decide) (by decide)⟩

end Branchable
